import Mathlib

/-!
Shallow embedding of the fingerprint-minutiae matching core of
`firebase_utils.py` (`calculate_similarity` and the ranking part of
`match_minutiae_with_database`).

Modelling conventions:
* Python numbers are modelled as rationals (`ℚ`).  Every numeric literal of
  the source is exactly representable; `2 * np.pi` is modelled by the exact
  rational value of the IEEE-754 double `2 * np.pi`, namely
  `884279719003555 / 2^47`.  The thresholds `5` and `0.3` are modelled as the
  exact rationals `5` and `3/10` (no claim depends on the `2^-54`-size gap
  between the double `0.3` and `3/10`).
* The source compares `sqrt(dx^2+dy^2) <= 5` and
  `distance < best_match_dist`; both are modelled on squared distances
  (`dist2 <= 25`, `dist2 < best2`), which is equivalent since `sqrt` is
  strictly monotone on nonnegative reals.
* Python dict cells hold either a number or a string (`PyVal`); dict keys are
  strings or integers (`PyKey`).  `float(v)` is modelled by `pyFloat`:
  numbers coerce to themselves, strings coerce exactly when they are decimal
  digit strings (the only string forms exercised here); any other string
  raises, modelled by `Except.error ()`.  `str.isdigit()` followed by
  `int(str)` is modelled by `pyDigits`, which succeeds exactly on nonempty
  all-ASCII-digit strings.
* Raising is modelled by `Except Unit`; the `try/except` wrapping the whole
  of `match_minutiae_with_database` maps an error to `none`.
-/

/-- Python scalar cell value: a number or a string. -/
inductive PyVal where
  | num (q : ℚ)
  | str (s : String)
deriving DecidableEq

/-- Python dict key: a string key or an integer key. -/
inductive PyKey where
  | str (s : String)
  | int (n : ℤ)
deriving DecidableEq

/-- One raw minutia point: a Python dict from keys to cell values. -/
structure RawPoint where
  entries : List (PyKey × PyVal)
deriving DecidableEq

/-- Python `k in point`. -/
def RawPoint.hasKey (p : RawPoint) (k : PyKey) : Bool :=
  p.entries.any (fun kv => kv.1 == k)

/-- Python `point.get(k, d)`. -/
def RawPoint.get (p : RawPoint) (k : PyKey) (d : PyVal) : PyVal :=
  match p.entries.find? (fun kv => kv.1 == k) with
  | some kv => kv.2
  | none => d

/-- The exact rational value of the IEEE-754 double `2 * np.pi`
(`np.pi` is the double `884279719003555 / 2^48`). -/
def twoPi : ℚ := 884279719003555 / 140737488355328

/-- Accumulating decimal parse over a character list: succeeds exactly when
every character is an ASCII digit. -/
def decDigitsAux : List Char → ℕ → Option ℕ
  | [], acc => some acc
  | c :: cs, acc =>
    if c.isDigit then decDigitsAux cs (acc * 10 + (c.toNat - 48)) else none

/-- Python `s.isdigit()` gating `int(s)`: succeeds exactly on nonempty
all-digit strings (written on the string's character list so it computes
structurally). -/
def pyDigits (s : String) : Option ℕ :=
  match s.data with
  | [] => none
  | c :: cs => decDigitsAux (c :: cs) 0

/-- Python `float(v)` on the value shapes that occur here: numbers coerce to
themselves; decimal digit strings coerce to their value; any other string
fails (raises `ValueError` in the source). -/
def pyFloat : PyVal → Option ℚ
  | PyVal.num q => some q
  | PyVal.str s =>
    match pyDigits s with
    | some n => some (n : ℚ)
    | none => none

/-- `float(v)` as a raising computation. -/
def toFloatE (v : PyVal) : Except Unit ℚ :=
  match pyFloat v with
  | some q => Except.ok q
  | none => Except.error ()

/-- A normalized point: `x`, `y`, `angle` coerced to numbers, `type` kept as
the raw cell value (the source does not coerce it during normalization). -/
structure NPoint where
  x : ℚ
  y : ℚ
  type : PyVal
  angle : ℚ
deriving DecidableEq

/-- Normalization of one point given the four role keys: coerce the `x`, `y`
and `angle` cells with `float` (defaulting absent cells to `0`), keep the
`type` cell raw.  This is the common body of the three key-shape branches of
the source (lines 383-418). -/
def normPositional (p : RawPoint) (kx ky kt ka : PyKey) : Except Unit NPoint :=
  match toFloatE (p.get kx (PyVal.num 0)) with
  | Except.error e => Except.error e
  | Except.ok x =>
    match toFloatE (p.get ky (PyVal.num 0)) with
    | Except.error e => Except.error e
    | Except.ok y =>
      match toFloatE (p.get ka (PyVal.num 0)) with
      | Except.error e => Except.error e
      | Except.ok a => Except.ok ⟨x, y, p.get kt (PyVal.num 0), a⟩

/-- Normalization of a reference point: branch on the key shape exactly as
the source does (`'0' in point`, then `0 in point`, else named keys). -/
def normalizeRefPoint (p : RawPoint) : Except Unit NPoint :=
  if p.hasKey (PyKey.str "0") then
    normPositional p (PyKey.str "0") (PyKey.str "1") (PyKey.str "2") (PyKey.str "3")
  else if p.hasKey (PyKey.int 0) then
    normPositional p (PyKey.int 0) (PyKey.int 1) (PyKey.int 2) (PyKey.int 3)
  else
    normPositional p (PyKey.str "x") (PyKey.str "y") (PyKey.str "type") (PyKey.str "angle")

/-- Normalization of an uploaded point: always via named keys. -/
def normalizeUpPoint (p : RawPoint) : Except Unit NPoint :=
  normPositional p (PyKey.str "x") (PyKey.str "y") (PyKey.str "type") (PyKey.str "angle")

/-- Normalize a whole reference list in order, raising at the first bad
point. -/
def normalizeRefList : List RawPoint → Except Unit (List NPoint)
  | [] => Except.ok []
  | p :: ps =>
    match normalizeRefPoint p with
    | Except.error e => Except.error e
    | Except.ok n =>
      match normalizeRefList ps with
      | Except.error e => Except.error e
      | Except.ok ns => Except.ok (n :: ns)

/-- Normalize a whole uploaded list in order. -/
def normalizeUpList : List RawPoint → Except Unit (List NPoint)
  | [] => Except.ok []
  | p :: ps =>
    match normalizeUpPoint p with
    | Except.error e => Except.error e
    | Except.ok n =>
      match normalizeUpList ps with
      | Except.error e => Except.error e
      | Except.ok ns => Except.ok (n :: ns)

/-- In-loop type normalization: an all-digit string becomes the integer it
spells (`test_type.isdigit()` then `int(test_type)`); everything else is kept
as is. -/
def normType : PyVal → PyVal
  | PyVal.str s =>
    match pyDigits s with
    | some n => PyVal.num (n : ℚ)
    | none => PyVal.str s
  | PyVal.num q => PyVal.num q

/-- Squared Euclidean distance (`distance^2` of the source). -/
def dist2 (t r : NPoint) : ℚ := (t.x - r.x) ^ 2 + (t.y - r.y) ^ 2

/-- Angle difference "handling circular nature":
`min(abs(d), 2*np.pi - abs(d))`.  No modular reduction is performed. -/
def angleDiff (t r : NPoint) : ℚ :=
  min |t.angle - r.angle| (twoPi - |t.angle - r.angle|)

/-- The three acceptance predicates of the source:
`distance <= 5` (squared form), `angle_diff <= 0.3`, equal normalized
types. -/
def pointsMatch (t r : NPoint) : Bool :=
  decide (dist2 t r ≤ 25) && decide (angleDiff t r ≤ 3 / 10) &&
    decide (normType t.type = normType r.type)

/-- One recorded match detail (distance stored squared). -/
structure Detail where
  testIdx : ℕ
  refIdx : ℕ
  dist2 : ℚ
  angleDiff : ℚ
  testCoords : ℚ × ℚ
  refCoords : ℚ × ℚ
deriving DecidableEq

/-- Inner loop over reference points for a single test point: keep the
detail of the accepted reference point of least distance (`best_match_dist`
starts at infinity, modelled by `none`). -/
def findBestGo (t : NPoint) (i : ℕ) (j : ℕ) (bestD : Option ℚ)
    (best : Option Detail) : List NPoint → Option Detail
  | [] => best
  | r :: rs =>
    let d := dist2 t r
    let better : Bool :=
      match bestD with
      | none => true
      | some b => decide (d < b)
    if pointsMatch t r && better then
      findBestGo t i (j + 1) (some d)
        (some ⟨i, j, d, angleDiff t r, (t.x, t.y), (r.x, r.y)⟩) rs
    else
      findBestGo t i (j + 1) bestD best rs

/-- Outer loop over test points: count the test points that found a match
and collect their details in order. -/
def matchLoopGo (nref : List NPoint) : ℕ → List NPoint → ℕ × List Detail
  | _, [] => (0, [])
  | i, t :: ts =>
    let rest := matchLoopGo nref (i + 1) ts
    match findBestGo t i 0 none none nref with
    | some d => (rest.1 + 1, d :: rest.2)
    | none => rest

/-- Result of one similarity computation. -/
structure MatchResult where
  score : ℚ
  matchedPoints : ℕ
  totalPoints : ℕ
  matchDetails : List Detail
deriving DecidableEq

/-- Embedding of `calculate_similarity` (lines 359-495): empty-input
short-circuit, key normalization of both sides (reference first), greedy
query-driven matching, score `matches / total * 100` guarded against a zero
total. -/
def calculate_similarity (uploaded reference : List RawPoint) :
    Except Unit MatchResult :=
  if uploaded.length = 0 ∨ reference.length = 0 then
    Except.ok ⟨0, 0, max uploaded.length reference.length, []⟩
  else
    match normalizeRefList reference with
    | Except.error e => Except.error e
    | Except.ok nref =>
      match normalizeUpList uploaded with
      | Except.error e => Except.error e
      | Except.ok nup =>
        let mr := matchLoopGo nref 0 nup
        let total := max nup.length nref.length
        let score : ℚ :=
          if 0 < total then ((mr.1 : ℚ) / (total : ℚ)) * 100 else 0
        Except.ok ⟨score, mr.1, total, mr.2.take 10⟩

deriving instance DecidableEq for Except

/-- One reference record as prepared from the Firestore documents (lines
246-262): identity, subject id and its stored minutiae.  The opaque
`matchData` display payload is irrelevant to scores and is not modelled. -/
structure RefRecord where
  id : ℕ
  srn : String
  minutiae : List RawPoint
deriving DecidableEq

/-- The per-record best-match entry accumulated into `all_matches`
(lines 294-300); `matchData` is carried through unmodified and omitted
here. -/
structure MatchEntry where
  id : ℕ
  srn : String
  similarity : MatchResult
  arrangement : ℕ
deriving DecidableEq

/-- The uploaded table: a headerless pandas DataFrame with `ncols` columns. -/
structure Table where
  ncols : ℕ
  rows : List (List PyVal)
deriving DecidableEq

/-- The four fixed candidate column arrangements (lines 227-236), in source
order. -/
def arrangements : List (List (String × ℕ)) :=
  [[("x", 0), ("y", 1), ("type", 2), ("angle", 3)],
   [("x", 0), ("y", 1), ("angle", 2), ("type", 3)],
   [("type", 0), ("x", 1), ("y", 2), ("angle", 3)],
   [("angle", 0), ("x", 1), ("y", 2), ("type", 3)]]

/-- Map one row under an arrangement: a role contributes a named cell only
when its column index is within the table's column count (lines 270-273). -/
def mapRow (arrange : List (String × ℕ)) (ncols : ℕ) (row : List PyVal) :
    RawPoint :=
  ⟨(arrange.filter (fun kc => decide (kc.2 < ncols))).map
    (fun kc => (PyKey.str kc.1, row.getD kc.2 (PyVal.num 0)))⟩

/-- The `all_test_minutiae` list: the table mapped under every arrangement
(lines 267-277). -/
def queryCandidates (tbl : Table) : List (List RawPoint) :=
  arrangements.map (fun a => tbl.rows.map (mapRow a tbl.ncols))

/-- Per-record loop over arrangements (lines 281-300): keep the entry of the
first arrangement whose score strictly exceeds every earlier one;
`best_match_score` starts at `0`, so a record whose every arrangement scores
`0` yields no entry. -/
def bestGo (r : RefRecord) : List (List RawPoint) → ℕ → ℚ →
    Option MatchEntry → Except Unit (Option MatchEntry)
  | [], _, _, best => Except.ok best
  | t :: ts, i, bestScore, best =>
    match calculate_similarity t r.minutiae with
    | Except.error e => Except.error e
    | Except.ok sim =>
      if bestScore < sim.score then
        bestGo r ts (i + 1) sim.score (some ⟨r.id, r.srn, sim, i⟩)
      else
        bestGo r ts (i + 1) bestScore best

/-- Best entry of one record over all arrangements. -/
def bestForRecord (tests : List (List RawPoint)) (r : RefRecord) :
    Except Unit (Option MatchEntry) :=
  bestGo r tests 0 0 none

/-- Build `all_matches`: record order is kept; records without a best entry
contribute nothing (lines 280-304). -/
def collectMatches (tests : List (List RawPoint)) :
    List RefRecord → Except Unit (List MatchEntry)
  | [] => Except.ok []
  | r :: rs =>
    match bestForRecord tests r with
    | Except.error e => Except.error e
    | Except.ok b =>
      match collectMatches tests rs with
      | Except.error e => Except.error e
      | Except.ok ms =>
        Except.ok (match b with
          | some e => e :: ms
          | none => ms)

/-- Stable descending insertion by score: an element goes before the first
element whose score is at most its own, which models Python's stable
`list.sort(key=score, reverse=True)`. -/
def insertDesc (e : MatchEntry) : List MatchEntry → List MatchEntry
  | [] => [e]
  | x :: xs =>
    if x.similarity.score ≤ e.similarity.score then e :: x :: xs
    else x :: insertDesc e xs

/-- Stable descending sort by score (line 307). -/
def sortDesc : List MatchEntry → List MatchEntry
  | [] => []
  | x :: xs => insertDesc x (sortDesc xs)

/-- The returned outcome dict in its three shapes (lines 317-352): the
perfect branch, the good branch and the closest branch; `none` models the
`return None` cases. -/
inductive RankedOutcome where
  | perfectO (primary : MatchEntry) (perfectMatches goodMatches allMatches : List MatchEntry)
  | goodO (primary : MatchEntry) (goodMatches allMatches : List MatchEntry)
  | closestO (closestMatch : MatchEntry) (allMatches : List MatchEntry)
deriving DecidableEq

/-- The `perfectMatches` field of an outcome (empty when absent). -/
def RankedOutcome.perfectList : RankedOutcome → List MatchEntry
  | .perfectO _ ps _ _ => ps
  | _ => []

/-- The `goodMatches` field of an outcome (empty when absent). -/
def RankedOutcome.goodList : RankedOutcome → List MatchEntry
  | .perfectO _ _ gs _ => gs
  | .goodO _ gs _ => gs
  | _ => []

/-- Whether the outcome is the below-threshold `closestMatch` shape. -/
def RankedOutcome.isClosest : RankedOutcome → Bool
  | .closestO _ _ => true
  | _ => false

/-- Classification of the sorted `all_matches` (lines 309-352):
`perfect_threshold = 99`, `threshold = 95`; the perfect branch keeps all
perfect entries but only the first three good entries; the good branch keeps
all good entries; otherwise the head of the sorted list is the closest
match; an empty list yields `None`. -/
def classifyMatches (ms : List MatchEntry) : Option RankedOutcome :=
  let perfect := ms.filter (fun m => decide (99 ≤ m.similarity.score))
  let good := ms.filter (fun m =>
    decide (95 ≤ m.similarity.score ∧ m.similarity.score < 99))
  match perfect with
  | p :: _ => some (.perfectO p perfect (good.take 3) (ms.take 5))
  | [] =>
    match good with
    | g :: _ => some (.goodO g good (ms.take 5))
    | [] =>
      match ms with
      | m :: _ => some (.closestO m (ms.take 5))
      | [] => none

/-- The ranking core as a raising computation: empty collection short-
circuits to `None`, then collect, sort and classify. -/
def rankCore (tbl : Table) (refs : List RefRecord) :
    Except Unit (Option RankedOutcome) :=
  if refs.isEmpty then Except.ok none
  else
    match collectMatches (queryCandidates tbl) refs with
    | Except.error e => Except.error e
    | Except.ok ms => Except.ok (classifyMatches (sortDesc ms))

/-- Embedding of `match_minutiae_with_database` (lines 210-357): the whole
body is wrapped in `try/except` returning `None` on any exception. -/
def match_minutiae_with_database (tbl : Table) (refs : List RefRecord) :
    Option RankedOutcome :=
  match rankCore tbl refs with
  | Except.ok o => o
  | Except.error _ => none

/-- Whether a cell value is a number. -/
def isNum : PyVal → Bool
  | PyVal.num _ => true
  | PyVal.str _ => false

/-- A point keyed by the named roles whose `x`, `y` and `angle` cells are
numbers (the shape the identity claim quantifies over). -/
def NamedNumeric (p : RawPoint) : Prop :=
  p.hasKey (PyKey.str "0") = false ∧ p.hasKey (PyKey.int 0) = false ∧
  isNum (p.get (PyKey.str "x") (PyVal.num 0)) = true ∧
  isNum (p.get (PyKey.str "y") (PyVal.num 0)) = true ∧
  isNum (p.get (PyKey.str "angle") (PyVal.num 0)) = true

instance (p : RawPoint) : Decidable (NamedNumeric p) := by
  unfold NamedNumeric; infer_instance

/-- Whether `float` succeeds on the cell stored under `k` (absent cells
default to the number `0`, on which it succeeds). -/
def coercibleAt (p : RawPoint) (k : PyKey) : Bool :=
  (pyFloat (p.get k (PyVal.num 0))).isSome

/-- The `x`, `y` and `angle` cells of an uploaded point all coerce. -/
def UpCoercible (p : RawPoint) : Prop :=
  coercibleAt p (PyKey.str "x") = true ∧ coercibleAt p (PyKey.str "y") = true ∧
  coercibleAt p (PyKey.str "angle") = true

instance (p : RawPoint) : Decidable (UpCoercible p) := by
  unfold UpCoercible; infer_instance

/-- The coordinate and angle cells of a reference point coerce, under
whichever key shape its normalization branch reads. -/
def RefCoercible (p : RawPoint) : Prop :=
  if p.hasKey (PyKey.str "0") then
    coercibleAt p (PyKey.str "0") = true ∧ coercibleAt p (PyKey.str "1") = true ∧
    coercibleAt p (PyKey.str "3") = true
  else if p.hasKey (PyKey.int 0) then
    coercibleAt p (PyKey.int 0) = true ∧ coercibleAt p (PyKey.int 1) = true ∧
    coercibleAt p (PyKey.int 3) = true
  else
    UpCoercible p

instance (p : RawPoint) : Decidable (RefCoercible p) := by
  unfold RefCoercible UpCoercible; infer_instance

/-- A point keyed by positional numeric-string keys. -/
def strKeyed : PyVal × PyVal × PyVal × PyVal → RawPoint
  | (vx, vy, vt, va) =>
    ⟨[(PyKey.str "0", vx), (PyKey.str "1", vy), (PyKey.str "2", vt),
      (PyKey.str "3", va)]⟩

/-- A point keyed by positional integer keys. -/
def intKeyed : PyVal × PyVal × PyVal × PyVal → RawPoint
  | (vx, vy, vt, va) =>
    ⟨[(PyKey.int 0, vx), (PyKey.int 1, vy), (PyKey.int 2, vt),
      (PyKey.int 3, va)]⟩

/-- A point keyed by the named role keys. -/
def namedKeyed : PyVal × PyVal × PyVal × PyVal → RawPoint
  | (vx, vy, vt, va) =>
    ⟨[(PyKey.str "x", vx), (PyKey.str "y", vy), (PyKey.str "type", vt),
      (PyKey.str "angle", va)]⟩

/-- A named-key point with numeric cells. -/
def namedPt (x y t a : ℚ) : RawPoint :=
  namedKeyed (PyVal.num x, PyVal.num y, PyVal.num t, PyVal.num a)

/-- The score of a similarity computation (`-1` marks a raise; the scorer
never produces a negative score). -/
def scoreOf : Except Unit MatchResult → ℚ
  | Except.ok r => r.score
  | Except.error _ => -1

/-- Whether some arrangement scores strictly positively against a record. -/
def hasPositiveArrangement (tests : List (List RawPoint)) (r : RefRecord) :
    Bool :=
  tests.any (fun t =>
    match calculate_similarity t r.minutiae with
    | Except.ok s => decide (0 < s.score)
    | Except.error _ => false)

/-- The ids in the `goodMatches` field of an outcome. -/
def goodIdsOf : Option RankedOutcome → List ℕ
  | some o => o.goodList.map (fun e => e.id)
  | none => []

/-- The ids in the `perfectMatches` field of an outcome. -/
def perfectIdsOf : Option RankedOutcome → List ℕ
  | some o => o.perfectList.map (fun e => e.id)
  | none => []

/-- The per-record best `(id, score)` pairs of a collection run. -/
def idScores (tbl : Table) (refs : List RefRecord) : List (ℕ × ℚ) :=
  match collectMatches (queryCandidates tbl) refs with
  | Except.ok ms => ms.map (fun e => (e.id, e.similarity.score))
  | Except.error _ => []

/-- A 20-row query table whose points cluster within distance 1.9 of the
origin: rows `(k/10, 0, 1, 0)` for `k = 0 .. 19`. -/
def tblB : Table :=
  ⟨4, (List.range 20).map (fun k =>
    [PyVal.num ((k : ℚ) / 10), PyVal.num 0, PyVal.num 1, PyVal.num 0])⟩

/-- One record matched by all 20 query points (score 100) and four records
matched by exactly 19 of the 20 (score 95). -/
def refsB : List RefRecord :=
  ⟨0, "s0", [namedPt 0 0 1 0]⟩ ::
  (List.range 4).map (fun k => ⟨k + 1, "g", [namedPt (101 / 20) 0 1 0]⟩)

/-- A one-row query table at the origin. -/
def tblC : Table :=
  ⟨4, [[PyVal.num 0, PyVal.num 0, PyVal.num 1, PyVal.num 0]]⟩

/-- A single record whose only point is far from the query under every
arrangement, so every arrangement scores `0`. -/
def refsC : List RefRecord := [⟨7, "far", [namedPt 1000 1000 1 0]⟩]

/-- A one-row query table identical to the single stored record. -/
def tblW : Table :=
  ⟨4, [[PyVal.num 10, PyVal.num 10, PyVal.num 1, PyVal.num 0]]⟩

/-- A single record identical to `tblW`'s row (score 100). -/
def refsW : List RefRecord := [⟨0, "s", [namedPt 10 10 1 0]⟩]

/-- The best entry `refsW`'s record earns against `tblW`. -/
def entryW : MatchEntry :=
  ⟨0, "s", ⟨100, 1, 1, [⟨0, 0, 0, 0, (10, 10), (10, 10)⟩]⟩, 0⟩

section Proofs

attribute [local semireducible] Rat.add Rat.mul Rat.inv Rat.sub

theorem normalizeRefList_length :
    ∀ (l : List RawPoint) (ns : List NPoint),
    normalizeRefList l = Except.ok ns → ns.length = l.length := by
  intro l
  induction l with
  | nil =>
    intro ns h
    simp only [normalizeRefList] at h
    cases h
    rfl
  | cons p ps ih =>
    intro ns h
    unfold normalizeRefList at h
    cases hp : normalizeRefPoint p with
    | error e => rw [hp] at h; cases h
    | ok n =>
      rw [hp] at h
      cases hps : normalizeRefList ps with
      | error e => rw [hps] at h; cases h
      | ok ns' =>
        rw [hps] at h
        cases h
        simp [ih ns' hps]

theorem normalizeUpList_length :
    ∀ (l : List RawPoint) (ns : List NPoint),
    normalizeUpList l = Except.ok ns → ns.length = l.length := by
  intro l
  induction l with
  | nil =>
    intro ns h
    simp only [normalizeUpList] at h
    cases h
    rfl
  | cons p ps ih =>
    intro ns h
    unfold normalizeUpList at h
    cases hp : normalizeUpPoint p with
    | error e => rw [hp] at h; cases h
    | ok n =>
      rw [hp] at h
      cases hps : normalizeUpList ps with
      | error e => rw [hps] at h; cases h
      | ok ns' =>
        rw [hps] at h
        cases h
        simp [ih ns' hps]

theorem calc_ok_of_norms (uploaded reference : List RawPoint)
    (nref nup : List NPoint)
    (hu : uploaded.length ≠ 0) (hr : reference.length ≠ 0)
    (h1 : normalizeRefList reference = Except.ok nref)
    (h2 : normalizeUpList uploaded = Except.ok nup) :
    calculate_similarity uploaded reference =
      Except.ok ⟨if 0 < max nup.length nref.length then
          (((matchLoopGo nref 0 nup).1 : ℚ) /
            ((max nup.length nref.length : ℕ) : ℚ)) * 100
        else 0,
        (matchLoopGo nref 0 nup).1, max nup.length nref.length,
        (matchLoopGo nref 0 nup).2.take 10⟩ := by
  unfold calculate_similarity
  rw [if_neg (by simp [hu, hr]), h1, h2]

theorem pointsMatch_self (n : NPoint) : pointsMatch n n = true := by
  have h1 : dist2 n n = 0 := by unfold dist2; ring
  have h2 : angleDiff n n = 0 := by
    unfold angleDiff
    rw [sub_self, abs_zero, sub_zero]
    exact min_eq_left (by norm_num [twoPi])
  simp only [pointsMatch, h1, h2, Bool.and_eq_true, decide_eq_true_eq]
  norm_num

theorem findBestGo_some :
    ∀ (rs : List NPoint) (t : NPoint) (i j : ℕ) (bD : Option ℚ) (d : Detail),
    (findBestGo t i j bD (some d) rs).isSome = true := by
  intro rs
  induction rs with
  | nil => intro t i j bD d; rfl
  | cons r rs ih =>
    intro t i j bD d
    unfold findBestGo
    dsimp only
    split
    · exact ih t i (j + 1) (some (dist2 t r)) _
    · exact ih t i (j + 1) bD d

theorem findBestGo_some_of_mem :
    ∀ (rs : List NPoint) (t r : NPoint) (i j : ℕ) (bD : Option ℚ)
      (best : Option Detail),
    (bD.isSome = true → best.isSome = true) → r ∈ rs →
    pointsMatch t r = true →
    (findBestGo t i j bD best rs).isSome = true := by
  intro rs
  induction rs with
  | nil => intro t r i j bD best hinv hmem hpm; cases hmem
  | cons r0 rs ih =>
    intro t r i j bD best hinv hmem hpm
    unfold findBestGo
    dsimp only
    rcases List.mem_cons.mp hmem with heq | hmem'
    · subst heq
      split
      · exact findBestGo_some rs t i (j + 1) (some (dist2 t r)) _
      · next hc =>
        have hbest : best.isSome = true := by
          apply hinv
          cases bD with
          | none => exact absurd (by rw [hpm]; rfl) hc
          | some b => rfl
        obtain ⟨d, hd⟩ := Option.isSome_iff_exists.mp hbest
        subst hd
        exact findBestGo_some rs t i (j + 1) bD d
    · split
      · exact findBestGo_some rs t i (j + 1) (some (dist2 t r0)) _
      · exact ih t r i (j + 1) bD best hinv hmem' hpm

theorem matchLoopGo_count_le :
    ∀ (ts nref : List NPoint) (i : ℕ),
    (matchLoopGo nref i ts).1 ≤ ts.length := by
  intro ts
  induction ts with
  | nil => intro nref i; simp [matchLoopGo]
  | cons t ts ih =>
    intro nref i
    unfold matchLoopGo
    dsimp only
    cases h : findBestGo t i 0 none none nref with
    | some d =>
      simpa using Nat.succ_le_succ (ih nref (i + 1))
    | none =>
      exact le_trans (ih nref (i + 1)) (Nat.le_succ _)

theorem matchLoopGo_count_full :
    ∀ (ts nref : List NPoint) (i : ℕ),
    (∀ t ∈ ts, ∃ r ∈ nref, pointsMatch t r = true) →
    (matchLoopGo nref i ts).1 = ts.length := by
  intro ts
  induction ts with
  | nil => intro nref i _; rfl
  | cons t ts ih =>
    intro nref i hall
    have hsome : (findBestGo t i 0 none none nref).isSome = true := by
      obtain ⟨r, hr, hpm⟩ := hall t (List.mem_cons_self t ts)
      exact findBestGo_some_of_mem nref t r i 0 none none (by simp) hr hpm
    obtain ⟨d, hd⟩ := Option.isSome_iff_exists.mp hsome
    unfold matchLoopGo
    dsimp only
    rw [hd]
    have := ih nref (i + 1) (fun t' ht' => hall t' (List.mem_cons_of_mem t ht'))
    simp [this]

/-- C5: for every pair of point sets with an empty side, the scorer
short-circuits to score 0, matchedPoints 0 and
totalPoints = max(|query|, |reference|), with no division by zero. -/
theorem c5_empty_inputs_zero_score (q r : List RawPoint)
    (h : q.length = 0 ∨ r.length = 0) :
    calculate_similarity q r =
      Except.ok ⟨0, 0, max q.length r.length, []⟩ := by
  unfold calculate_similarity
  rw [if_pos h]

theorem c5_empty_inputs_zero_score_witness :
    calculate_similarity [] [] = Except.ok ⟨0, 0, 0, []⟩ :=
  c5_empty_inputs_zero_score [] [] (Or.inl rfl)

/-- C6: two points whose angles lie in `[0, 2π)` and differ in absolute
value by `2π − 0.05` have shortest-arc angular difference `0.05`, so with
the distance and type predicates satisfied the pair is accepted. -/
theorem c6_angular_wraparound (t r : NPoint)
    (h0 : 0 ≤ t.angle) (h1 : t.angle < twoPi)
    (h2 : 0 ≤ r.angle) (h3 : r.angle < twoPi)
    (hd : |t.angle - r.angle| = twoPi - 1 / 20)
    (hdist : dist2 t r ≤ 25) (hty : normType t.type = normType r.type) :
    angleDiff t r = 1 / 20 ∧ pointsMatch t r = true := by
  have ha : angleDiff t r = 1 / 20 := by
    unfold angleDiff
    rw [hd]
    have he : twoPi - (twoPi - 1 / 20) = 1 / 20 := by ring
    rw [he]
    exact min_eq_right (by norm_num [twoPi])
  refine ⟨ha, ?_⟩
  simp only [pointsMatch, Bool.and_eq_true, decide_eq_true_eq]
  exact ⟨⟨hdist, by rw [ha]; norm_num⟩, hty⟩

theorem c6_angular_wraparound_witness :
    angleDiff ⟨0, 0, PyVal.num 1, 0⟩ ⟨0, 0, PyVal.num 1, twoPi - 1 / 20⟩ =
      1 / 20 ∧
    pointsMatch ⟨0, 0, PyVal.num 1, 0⟩ ⟨0, 0, PyVal.num 1, twoPi - 1 / 20⟩ =
      true :=
  c6_angular_wraparound _ _ (by decide) (by decide) (by decide) (by decide)
    (by decide) (by decide) (by decide)

/-- C8: the score is not symmetric in (query, reference): a query with a
duplicated point against a singleton reference scores 100, while the
swapped call scores 50. -/
theorem c8_asymmetry :
    scoreOf (calculate_similarity [namedPt 0 0 1 0, namedPt 0 0 1 0]
        [namedPt 0 0 1 0]) = 100 ∧
    scoreOf (calculate_similarity [namedPt 0 0 1 0]
        [namedPt 0 0 1 0, namedPt 0 0 1 0]) = 50 ∧
    (100 : ℚ) ≠ 50 := by
  refine ⟨by decide, by decide, by norm_num⟩

/-- C10: when two angles differ in absolute value by more than `2π`, the
computed angle difference is negative, hence the `0.3` threshold check
passes regardless of true angular proximity (no modular reduction of angles
is performed). -/
theorem c10_large_angle_gap_accepted (t r : NPoint)
    (h : twoPi < |t.angle - r.angle|) :
    angleDiff t r < 0 ∧ angleDiff t r ≤ 3 / 10 := by
  have h2 : twoPi - |t.angle - r.angle| < 0 := by linarith
  have h3 : angleDiff t r ≤ twoPi - |t.angle - r.angle| := min_le_right _ _
  have h4 : angleDiff t r < 0 := lt_of_le_of_lt h3 h2
  exact ⟨h4, le_trans (le_of_lt h4) (by norm_num)⟩

theorem c10_large_angle_gap_accepted_witness :
    angleDiff ⟨0, 0, PyVal.num 1, 0⟩ ⟨0, 0, PyVal.num 1, 7⟩ < 0 ∧
    angleDiff ⟨0, 0, PyVal.num 1, 0⟩ ⟨0, 0, PyVal.num 1, 7⟩ ≤ 3 / 10 :=
  c10_large_angle_gap_accepted _ _ (by decide)

/-- C9: every computed similarity result has a score in [0, 100], with
matched points never exceeding the total and the total equal to the larger
input size. -/
theorem c9_score_bounded (up ref : List RawPoint) (res : MatchResult)
    (h : calculate_similarity up ref = Except.ok res) :
    0 ≤ res.score ∧ res.score ≤ 100 ∧
    res.matchedPoints ≤ res.totalPoints ∧
    res.totalPoints = max up.length ref.length := by
  unfold calculate_similarity at h
  by_cases hemp : up.length = 0 ∨ ref.length = 0
  · rw [if_pos hemp] at h
    cases h
    exact ⟨le_refl 0, by norm_num, Nat.zero_le _, rfl⟩
  · rw [if_neg hemp] at h
    cases h1 : normalizeRefList ref with
    | error e => rw [h1] at h; cases h
    | ok nref =>
      rw [h1] at h
      cases h2 : normalizeUpList up with
      | error e => rw [h2] at h; cases h
      | ok nup =>
        rw [h2] at h
        cases h
        push_neg at hemp
        have hun : nup.length = up.length := normalizeUpList_length up nup h2
        have hrn : nref.length = ref.length := normalizeRefList_length ref nref h1
        have hm : (matchLoopGo nref 0 nup).1 ≤ nup.length :=
          matchLoopGo_count_le nup nref 0
        have hmt : (matchLoopGo nref 0 nup).1 ≤ max nup.length nref.length :=
          le_trans hm (le_max_left _ _)
        have hpos : 0 < max nup.length nref.length := by
          have := hemp.1
          omega
        refine ⟨?_, ?_, hmt, by rw [hun, hrn]⟩
        · rw [if_pos hpos]
          exact mul_nonneg (div_nonneg (Nat.cast_nonneg _) (Nat.cast_nonneg _))
            (by norm_num)
        · rw [if_pos hpos]
          have hdiv : ((matchLoopGo nref 0 nup).1 : ℚ) /
              ((max nup.length nref.length : ℕ) : ℚ) ≤ 1 :=
            (div_le_one (by exact_mod_cast hpos)).mpr (by exact_mod_cast hmt)
          calc ((matchLoopGo nref 0 nup).1 : ℚ) /
              ((max nup.length nref.length : ℕ) : ℚ) * 100 ≤ 1 * 100 :=
                mul_le_mul_of_nonneg_right hdiv (by norm_num)
            _ = 100 := one_mul 100

theorem c9_score_bounded_witness :
    0 ≤ (⟨0, 0, 1, []⟩ : MatchResult).score ∧
    (⟨0, 0, 1, []⟩ : MatchResult).score ≤ 100 ∧
    (⟨0, 0, 1, []⟩ : MatchResult).matchedPoints ≤
      (⟨0, 0, 1, []⟩ : MatchResult).totalPoints ∧
    (⟨0, 0, 1, []⟩ : MatchResult).totalPoints =
      max [namedPt 0 0 1 0].length [namedPt 1000 1000 1 0].length :=
  c9_score_bounded [namedPt 0 0 1 0] [namedPt 1000 1000 1 0] ⟨0, 0, 1, []⟩
    (by decide)

theorem normNamed_both (p : RawPoint) (h : NamedNumeric p) :
    ∃ n, normalizeRefPoint p = Except.ok n ∧
      normalizeUpPoint p = Except.ok n := by
  obtain ⟨h0, hi, hx, hy, ha⟩ := h
  have hbranch : normalizeRefPoint p = normalizeUpPoint p := by
    unfold normalizeRefPoint
    simp [h0, hi]
    rfl
  cases hvx : p.get (PyKey.str "x") (PyVal.num 0) with
  | str s => rw [hvx] at hx; simp [isNum] at hx
  | num qx =>
    cases hvy : p.get (PyKey.str "y") (PyVal.num 0) with
    | str s => rw [hvy] at hy; simp [isNum] at hy
    | num qy =>
      cases hva : p.get (PyKey.str "angle") (PyVal.num 0) with
      | str s => rw [hva] at ha; simp [isNum] at ha
      | num qa =>
        have hup : normalizeUpPoint p =
            Except.ok ⟨qx, qy, p.get (PyKey.str "type") (PyVal.num 0), qa⟩ := by
          unfold normalizeUpPoint normPositional
          rw [hvx, hvy, hva]
          rfl
        exact ⟨_, by rw [hbranch, hup], hup⟩

theorem normNamed_lists :
    ∀ (P : List RawPoint), (∀ p ∈ P, NamedNumeric p) →
    ∃ N, normalizeRefList P = Except.ok N ∧
      normalizeUpList P = Except.ok N ∧ N.length = P.length := by
  intro P
  induction P with
  | nil => intro _; exact ⟨[], rfl, rfl, rfl⟩
  | cons p ps ih =>
    intro h
    obtain ⟨n, hr, hu⟩ := normNamed_both p (h p (List.mem_cons_self p ps))
    obtain ⟨N, hrs, hus, hlen⟩ :=
      ih (fun q hq => h q (List.mem_cons_of_mem p hq))
    refine ⟨n :: N, ?_, ?_, by simp [hlen]⟩
    · unfold normalizeRefList; rw [hr, hrs]
    · unfold normalizeUpList; rw [hu, hus]

/-- C1: scoring a non-empty named-key numeric point set against itself
yields score 100 with matchedPoints = totalPoints = |P|. -/
theorem c1_identity_self_score (P : List RawPoint) (hne : P ≠ [])
    (hwf : ∀ p ∈ P, NamedNumeric p) :
    ∃ details, calculate_similarity P P =
      Except.ok ⟨100, P.length, P.length, details⟩ := by
  obtain ⟨N, hr, hu, hlen⟩ := normNamed_lists P hwf
  have hlen0 : P.length ≠ 0 := fun hz => hne (List.length_eq_zero.mp hz)
  have hcalc := calc_ok_of_norms P P N N hlen0 hlen0 hr hu
  have hcount : (matchLoopGo N 0 N).1 = N.length :=
    matchLoopGo_count_full N N 0 (fun t ht => ⟨t, ht, pointsMatch_self t⟩)
  rw [hcalc]
  refine ⟨(matchLoopGo N 0 N).2.take 10, ?_⟩
  have hNne : N.length ≠ 0 := by rw [hlen]; exact hlen0
  have hpos : 0 < max N.length N.length := by
    simp [Nat.pos_of_ne_zero hNne]
  have hscore : (if 0 < max N.length N.length then
      (((matchLoopGo N 0 N).1 : ℚ) /
        ((max N.length N.length : ℕ) : ℚ)) * 100
    else 0) = 100 := by
    rw [if_pos hpos, hcount, max_self]
    rw [div_self (by exact_mod_cast hNne), one_mul]
  rw [hscore, hcount, max_self, hlen]

theorem c1_identity_self_score_witness :
    ∃ details, calculate_similarity [namedPt 1 2 3 4] [namedPt 1 2 3 4] =
      Except.ok ⟨100, [namedPt 1 2 3 4].length, [namedPt 1 2 3 4].length,
        details⟩ :=
  c1_identity_self_score [namedPt 1 2 3 4] (by decide) (by decide)

/-- C4 counterexample: a query point whose `x` cell is the unparsable string
`"abc"` makes the scorer raise (`float("abc")` raises `ValueError` outside
any local handler), rather than defaulting to 0 and returning a result. -/
theorem c4_unparsable_raises_counterexample :
    calculate_similarity [⟨[(PyKey.str "x", PyVal.str "abc")]⟩]
      [namedPt 0 0 1 0] = Except.error () := by decide

theorem normPositional_ok (p : RawPoint) (kx ky kt ka : PyKey)
    (hx : coercibleAt p kx = true) (hy : coercibleAt p ky = true)
    (ha : coercibleAt p ka = true) :
    ∃ n, normPositional p kx ky kt ka = Except.ok n := by
  unfold coercibleAt at hx hy ha
  obtain ⟨qx, hqx⟩ := Option.isSome_iff_exists.mp hx
  obtain ⟨qy, hqy⟩ := Option.isSome_iff_exists.mp hy
  obtain ⟨qa, hqa⟩ := Option.isSome_iff_exists.mp ha
  refine ⟨⟨qx, qy, p.get kt (PyVal.num 0), qa⟩, ?_⟩
  unfold normPositional toFloatE
  rw [hqx, hqy, hqa]

theorem normalizeUpPoint_ok (p : RawPoint) (h : UpCoercible p) :
    ∃ n, normalizeUpPoint p = Except.ok n := by
  obtain ⟨hx, hy, ha⟩ := h
  exact normPositional_ok p _ _ _ _ hx hy ha

theorem normalizeRefPoint_ok (p : RawPoint) (h : RefCoercible p) :
    ∃ n, normalizeRefPoint p = Except.ok n := by
  unfold RefCoercible at h
  unfold normalizeRefPoint
  by_cases h0 : p.hasKey (PyKey.str "0") = true
  · rw [if_pos h0] at h ⊢
    obtain ⟨hx, hy, ha⟩ := h
    exact normPositional_ok p _ _ _ _ hx hy ha
  · rw [if_neg h0] at h ⊢
    by_cases hi : p.hasKey (PyKey.int 0) = true
    · rw [if_pos hi] at h ⊢
      obtain ⟨hx, hy, ha⟩ := h
      exact normPositional_ok p _ _ _ _ hx hy ha
    · rw [if_neg hi] at h ⊢
      obtain ⟨hx, hy, ha⟩ := h
      exact normPositional_ok p _ _ _ _ hx hy ha

theorem normalizeUpList_ok :
    ∀ (l : List RawPoint), (∀ p ∈ l, UpCoercible p) →
    ∃ ns, normalizeUpList l = Except.ok ns := by
  intro l
  induction l with
  | nil => intro _; exact ⟨[], rfl⟩
  | cons p ps ih =>
    intro h
    obtain ⟨n, hn⟩ := normalizeUpPoint_ok p (h p (List.mem_cons_self p ps))
    obtain ⟨ns, hns⟩ := ih (fun q hq => h q (List.mem_cons_of_mem p hq))
    refine ⟨n :: ns, ?_⟩
    unfold normalizeUpList
    rw [hn, hns]

theorem normalizeRefList_ok :
    ∀ (l : List RawPoint), (∀ p ∈ l, RefCoercible p) →
    ∃ ns, normalizeRefList l = Except.ok ns := by
  intro l
  induction l with
  | nil => intro _; exact ⟨[], rfl⟩
  | cons p ps ih =>
    intro h
    obtain ⟨n, hn⟩ := normalizeRefPoint_ok p (h p (List.mem_cons_self p ps))
    obtain ⟨ns, hns⟩ := ih (fun q hq => h q (List.mem_cons_of_mem p hq))
    refine ⟨n :: ns, ?_⟩
    unfold normalizeRefList
    rw [hn, hns]

/-- C4 amended: absent `x`, `y`, `angle` cells default to 0, and scoring
completes with a `MatchResult` whenever every present coordinate and angle
cell coerces under `float`; an unparsable cell instead raises (see the
counterexample). -/
theorem c4_defaults_and_coercible_total (q r : List RawPoint)
    (hq : ∀ p ∈ q, UpCoercible p) (hr : ∀ p ∈ r, RefCoercible p) :
    normalizeUpPoint ⟨[]⟩ = Except.ok ⟨0, 0, PyVal.num 0, 0⟩ ∧
    normalizeRefPoint ⟨[]⟩ = Except.ok ⟨0, 0, PyVal.num 0, 0⟩ ∧
    ∃ res, calculate_similarity q r = Except.ok res := by
  refine ⟨by decide, by decide, ?_⟩
  by_cases hemp : q.length = 0 ∨ r.length = 0
  · unfold calculate_similarity
    rw [if_pos hemp]
    exact ⟨_, rfl⟩
  · push_neg at hemp
    obtain ⟨nr, hnr⟩ := normalizeRefList_ok r hr
    obtain ⟨nu, hnu⟩ := normalizeUpList_ok q hq
    exact ⟨_, calc_ok_of_norms q r nr nu hemp.1 hemp.2 hnr hnu⟩

theorem c4_defaults_and_coercible_total_witness :
    normalizeUpPoint ⟨[]⟩ = Except.ok ⟨0, 0, PyVal.num 0, 0⟩ ∧
    normalizeRefPoint ⟨[]⟩ = Except.ok ⟨0, 0, PyVal.num 0, 0⟩ ∧
    ∃ res, calculate_similarity [⟨[(PyKey.str "x", PyVal.str "7")]⟩]
      [strKeyed (PyVal.str "3", PyVal.num 2, PyVal.str "t", PyVal.num 1)] =
        Except.ok res :=
  c4_defaults_and_coercible_total _ _ (by decide) (by decide)

theorem normRef_strKeyed_eq_intKeyed (v : PyVal × PyVal × PyVal × PyVal) :
    normalizeRefPoint (strKeyed v) = normalizeRefPoint (intKeyed v) := by
  obtain ⟨vx, vy, vt, va⟩ := v
  rfl

theorem normRef_intKeyed_eq_namedKeyed (v : PyVal × PyVal × PyVal × PyVal) :
    normalizeRefPoint (intKeyed v) = normalizeRefPoint (namedKeyed v) := by
  obtain ⟨vx, vy, vt, va⟩ := v
  rfl

theorem normRefList_keyShape :
    ∀ (vals : List (PyVal × PyVal × PyVal × PyVal)),
    normalizeRefList (vals.map strKeyed) =
      normalizeRefList (vals.map intKeyed) ∧
    normalizeRefList (vals.map intKeyed) =
      normalizeRefList (vals.map namedKeyed) := by
  intro vals
  induction vals with
  | nil => exact ⟨rfl, rfl⟩
  | cons v vs ih =>
    constructor
    · simp only [List.map_cons]
      unfold normalizeRefList
      rw [normRef_strKeyed_eq_intKeyed v, ih.1]
    · simp only [List.map_cons]
      unfold normalizeRefList
      rw [normRef_intKeyed_eq_namedKeyed v, ih.2]

/-- C7: reference point sets carrying the same per-role values under
numeric-string keys, integer keys, or named keys produce identical results
against any query. -/
theorem c7_key_shape_irrelevant (q : List RawPoint)
    (vals : List (PyVal × PyVal × PyVal × PyVal)) :
    calculate_similarity q (vals.map strKeyed) =
      calculate_similarity q (vals.map intKeyed) ∧
    calculate_similarity q (vals.map intKeyed) =
      calculate_similarity q (vals.map namedKeyed) := by
  obtain ⟨h1, h2⟩ := normRefList_keyShape vals
  constructor
  · unfold calculate_similarity
    simp only [List.length_map]
    rw [h1]
  · unfold calculate_similarity
    simp only [List.length_map]
    rw [h2]

theorem mem_insertDesc :
    ∀ (l : List MatchEntry) (e x : MatchEntry),
    x ∈ insertDesc e l ↔ x = e ∨ x ∈ l := by
  intro l
  induction l with
  | nil => intro e x; simp [insertDesc]
  | cons a l ih =>
    intro e x
    unfold insertDesc
    split
    · simp [List.mem_cons]
    · rw [List.mem_cons, ih e x, List.mem_cons]
      tauto

theorem mem_sortDesc :
    ∀ (l : List MatchEntry) (x : MatchEntry), x ∈ sortDesc l ↔ x ∈ l := by
  intro l
  induction l with
  | nil => intro x; simp [sortDesc]
  | cons a l ih =>
    intro x
    unfold sortDesc
    rw [mem_insertDesc, ih, List.mem_cons]

theorem insertDesc_pairwise (e : MatchEntry) :
    ∀ (l : List MatchEntry),
    l.Pairwise (fun a b => b.similarity.score ≤ a.similarity.score) →
    (insertDesc e l).Pairwise
      (fun a b => b.similarity.score ≤ a.similarity.score) := by
  intro l
  induction l with
  | nil => intro _; simp [insertDesc]
  | cons a l ih =>
    intro hp
    rw [List.pairwise_cons] at hp
    obtain ⟨ha, hl⟩ := hp
    unfold insertDesc
    split
    · next hc =>
      rw [List.pairwise_cons]
      refine ⟨?_, ?_⟩
      · intro b hb
        rcases List.mem_cons.mp hb with rfl | hbl
        · exact hc
        · exact le_trans (ha b hbl) hc
      · rw [List.pairwise_cons]
        exact ⟨ha, hl⟩
    · next hc =>
      rw [List.pairwise_cons]
      refine ⟨?_, ih hl⟩
      intro b hb
      rcases (mem_insertDesc l e b).mp hb with rfl | hbl
      · exact le_of_lt (lt_of_not_le hc)
      · exact ha b hbl

theorem sortDesc_pairwise :
    ∀ (l : List MatchEntry),
    (sortDesc l).Pairwise
      (fun a b => b.similarity.score ≤ a.similarity.score) := by
  intro l
  induction l with
  | nil => simp [sortDesc]
  | cons a l ih =>
    unfold sortDesc
    exact insertDesc_pairwise a (sortDesc l) ih

theorem sortDesc_head_max (l : List MatchEntry) (c : MatchEntry)
    (rest : List MatchEntry) (h : sortDesc l = c :: rest) (e : MatchEntry)
    (he : e ∈ l) : e.similarity.score ≤ c.similarity.score := by
  have hp := sortDesc_pairwise l
  rw [h, List.pairwise_cons] at hp
  have hm : e ∈ c :: rest := by
    rw [← h, mem_sortDesc]
    exact he
  rcases List.mem_cons.mp hm with rfl | hrest
  · exact le_refl _
  · exact hp.1 e hrest

theorem rank_eq_classify (tbl : Table) (refs : List RefRecord)
    (ms : List MatchEntry) (hne : refs ≠ [])
    (hms : collectMatches (queryCandidates tbl) refs = Except.ok ms) :
    match_minutiae_with_database tbl refs =
      classifyMatches (sortDesc ms) := by
  unfold match_minutiae_with_database rankCore
  rw [if_neg (show ¬(refs.isEmpty = true) by
    cases refs with
    | nil => exact absurd rfl hne
    | cons a l => simp), hms]

theorem classify_bands (ms : List MatchEntry) (out : RankedOutcome)
    (hcl : classifyMatches ms = some out) :
    (∀ e ∈ ms, 99 ≤ e.similarity.score → e ∈ out.perfectList) ∧
    ((∀ e ∈ ms, e.similarity.score < 99) →
      ∀ e ∈ ms, 95 ≤ e.similarity.score → e ∈ out.goodList) ∧
    (∀ e, e.similarity.score < 95 →
      e ∉ out.perfectList ∧ e ∉ out.goodList) ∧
    (out.isClosest = true → ∀ e ∈ ms, e.similarity.score < 95) := by
  simp only [classifyMatches] at hcl
  split at hcl
  · next p ps hp =>
    cases hcl
    refine ⟨?_, ?_, ?_, ?_⟩
    · intro e he h99
      show e ∈ ms.filter (fun m => decide (99 ≤ m.similarity.score))
      exact List.mem_filter.mpr ⟨he, decide_eq_true h99⟩
    · intro hall
      have hpmem : p ∈ ms.filter (fun m => decide (99 ≤ m.similarity.score)) := by
        rw [hp]
        exact List.mem_cons_self p ps
      obtain ⟨hpm, hps⟩ := List.mem_filter.mp hpmem
      exact absurd (of_decide_eq_true hps) (not_le.mpr (hall p hpm))
    · intro e h95
      constructor
      · intro hmem
        have := List.mem_filter.mp hmem
        have h99 := of_decide_eq_true this.2
        linarith
      · intro hmem
        have hmem2 := List.take_subset 3 _ hmem
        have := List.mem_filter.mp hmem2
        have hgood := of_decide_eq_true this.2
        linarith [hgood.1]
    · intro hcls
      simp [RankedOutcome.isClosest] at hcls
  · next hp =>
    split at hcl
    · next g gs hg =>
      cases hcl
      refine ⟨?_, ?_, ?_, ?_⟩
      · intro e he h99
        have hmem : e ∈ ms.filter (fun m => decide (99 ≤ m.similarity.score)) :=
          List.mem_filter.mpr ⟨he, decide_eq_true h99⟩
        rw [hp] at hmem
        cases hmem
      · intro hall e he h95
        show e ∈ ms.filter (fun m =>
          decide (95 ≤ m.similarity.score ∧ m.similarity.score < 99))
        exact List.mem_filter.mpr ⟨he, decide_eq_true ⟨h95, hall e he⟩⟩
      · intro e h95
        constructor
        · intro hmem
          cases hmem
        · intro hmem
          have := List.mem_filter.mp hmem
          have hgood := of_decide_eq_true this.2
          linarith [hgood.1]
      · intro hcls
        simp [RankedOutcome.isClosest] at hcls
    · next hg =>
      split at hcl
      · next m ms' =>
        cases hcl
        refine ⟨?_, ?_, ?_, ?_⟩
        · intro e he h99
          have hmem : e ∈ (m :: ms').filter
              (fun x => decide (99 ≤ x.similarity.score)) :=
            List.mem_filter.mpr ⟨he, decide_eq_true h99⟩
          rw [hp] at hmem
          cases hmem
        · intro hall e he h95
          have hmem : e ∈ (m :: ms').filter (fun x =>
              decide (95 ≤ x.similarity.score ∧ x.similarity.score < 99)) :=
            List.mem_filter.mpr ⟨he, decide_eq_true ⟨h95, hall e he⟩⟩
          rw [hg] at hmem
          cases hmem
        · intro e h95
          exact ⟨List.not_mem_nil e, List.not_mem_nil e⟩
        · intro _ e he
          rcases lt_or_le e.similarity.score 95 with hlt | h95
          · exact hlt
          · exfalso
            rcases lt_or_le e.similarity.score 99 with hlt99 | h99
            · have hmem : e ∈ (m :: ms').filter (fun x =>
                  decide (95 ≤ x.similarity.score ∧ x.similarity.score < 99)) :=
                List.mem_filter.mpr ⟨he, decide_eq_true ⟨h95, hlt99⟩⟩
              rw [hg] at hmem
              cases hmem
            · have hmem : e ∈ (m :: ms').filter
                  (fun x => decide (99 ≤ x.similarity.score)) :=
                List.mem_filter.mpr ⟨he, decide_eq_true h99⟩
              rw [hp] at hmem
              cases hmem
      · next hm =>
        cases hcl

/-- C2 amended: every best-per-record entry scoring >= 99 is in
`perfectMatches`; entries in [95, 99) are all in `goodMatches` only when no
entry reaches 99 (in the perfect branch only the top 3 good entries are
kept); entries below 95 are never in either list and the closest-match
shape occurs only when every entry is below 95. -/
theorem c2_classification_bands (tbl : Table) (refs : List RefRecord)
    (ms : List MatchEntry) (out : RankedOutcome)
    (hne : refs ≠ [])
    (hms : collectMatches (queryCandidates tbl) refs = Except.ok ms)
    (hout : match_minutiae_with_database tbl refs = some out) :
    (∀ e ∈ ms, 99 ≤ e.similarity.score → e ∈ out.perfectList) ∧
    ((∀ e ∈ ms, e.similarity.score < 99) →
      ∀ e ∈ ms, 95 ≤ e.similarity.score → e ∈ out.goodList) ∧
    (∀ e, e.similarity.score < 95 →
      e ∉ out.perfectList ∧ e ∉ out.goodList) ∧
    (out.isClosest = true → ∀ e ∈ ms, e.similarity.score < 95) := by
  have hcl : classifyMatches (sortDesc ms) = some out := by
    rw [← rank_eq_classify tbl refs ms hne hms]
    exact hout
  obtain ⟨p1, p2, p3, p4⟩ := classify_bands (sortDesc ms) out hcl
  refine ⟨?_, ?_, p3, ?_⟩
  · intro e he h99
    exact p1 e ((mem_sortDesc ms e).mpr he) h99
  · intro hall e he h95
    exact p2 (fun x hx => hall x ((mem_sortDesc ms x).mp hx)) e
      ((mem_sortDesc ms e).mpr he) h95
  · intro hcls e he
    exact p4 hcls e ((mem_sortDesc ms e).mpr he)

/-- C2 counterexample: with one record scoring 100 and four records
scoring exactly 95, the perfect branch truncates `goodMatches` to the first
three, so the record with id 4, although its best score 95 lies in
[95, 99), is not classified in `goodMatches`. -/
theorem c2_take3_counterexample :
    idScores tblB refsB = [(0, 100), (1, 95), (2, 95), (3, 95), (4, 95)] ∧
    perfectIdsOf (match_minutiae_with_database tblB refsB) = [0] ∧
    goodIdsOf (match_minutiae_with_database tblB refsB) = [1, 2, 3] := by
  decide

theorem c2_classification_bands_witness :
    (∀ e ∈ [entryW], 99 ≤ e.similarity.score →
      e ∈ (RankedOutcome.perfectO entryW [entryW] [] [entryW]).perfectList) ∧
    ((∀ e ∈ [entryW], e.similarity.score < 99) →
      ∀ e ∈ [entryW], 95 ≤ e.similarity.score →
      e ∈ (RankedOutcome.perfectO entryW [entryW] [] [entryW]).goodList) ∧
    (∀ e, e.similarity.score < 95 →
      e ∉ (RankedOutcome.perfectO entryW [entryW] [] [entryW]).perfectList ∧
      e ∉ (RankedOutcome.perfectO entryW [entryW] [] [entryW]).goodList) ∧
    ((RankedOutcome.perfectO entryW [entryW] [] [entryW]).isClosest = true →
      ∀ e ∈ [entryW], e.similarity.score < 95) :=
  c2_classification_bands tblW refsW [entryW]
    (RankedOutcome.perfectO entryW [entryW] [] [entryW])
    (by decide) (by decide) (by decide)

theorem bestGo_ok_some :
    ∀ (ts : List (List RawPoint)) (r : RefRecord) (i : ℕ) (s : ℚ)
      (e : MatchEntry) (b : Option MatchEntry),
    bestGo r ts i s (some e) = Except.ok b → b.isSome = true := by
  intro ts
  induction ts with
  | nil =>
    intro r i s e b h
    unfold bestGo at h
    cases h
    rfl
  | cons t ts ih =>
    intro r i s e b h
    unfold bestGo at h
    split at h
    · cases h
    · next sim hsim =>
      split at h
      · exact ih r (i + 1) sim.score _ b h
      · exact ih r (i + 1) s e b h

theorem bestGo_ok_isSome :
    ∀ (ts : List (List RawPoint)) (r : RefRecord) (i : ℕ) (s : ℚ)
      (best : Option MatchEntry) (b : Option MatchEntry),
    0 ≤ s → (best.isSome = true ↔ 0 < s) →
    bestGo r ts i s best = Except.ok b →
    (b.isSome = true ↔ 0 < s ∨ ∃ t ∈ ts, ∃ sim,
      calculate_similarity t r.minutiae = Except.ok sim ∧ s < sim.score) := by
  intro ts
  induction ts with
  | nil =>
    intro r i s best b hs hinv h
    unfold bestGo at h
    cases h
    simp [hinv]
  | cons t ts ih =>
    intro r i s best b hs hinv h
    unfold bestGo at h
    split at h
    · cases h
    · next sim hc =>
      split at h
      · next hlt =>
        have hb := bestGo_ok_some ts r (i + 1) sim.score _ b h
        constructor
        · intro _
          exact Or.inr ⟨t, List.mem_cons_self t ts, sim, hc, hlt⟩
        · intro _
          exact hb
      · next hge =>
        rw [ih r (i + 1) s best b hs hinv h]
        constructor
        · rintro (h0 | ⟨u, hu, sim', hsim', hlt'⟩)
          · exact Or.inl h0
          · exact Or.inr ⟨u, List.mem_cons_of_mem t hu, sim', hsim', hlt'⟩
        · rintro (h0 | ⟨u, hu, sim', hsim', hlt'⟩)
          · exact Or.inl h0
          · rcases List.mem_cons.mp hu with rfl | hmem
            · rw [hc] at hsim'
              cases hsim'
              exact absurd hlt' hge
            · exact Or.inr ⟨u, hmem, sim', hsim', hlt'⟩

theorem bestForRecord_isSome_iff (tests : List (List RawPoint))
    (r : RefRecord) (b : Option MatchEntry)
    (h : bestForRecord tests r = Except.ok b) :
    (b.isSome = true ↔ hasPositiveArrangement tests r = true) := by
  rw [bestGo_ok_isSome tests r 0 0 none b (le_refl 0) (by simp) h]
  unfold hasPositiveArrangement
  rw [List.any_eq_true]
  constructor
  · rintro (h0 | ⟨t, ht, sim, hsim, hlt⟩)
    · exact absurd h0 (lt_irrefl 0)
    · refine ⟨t, ht, ?_⟩
      rw [hsim]
      simpa using hlt
  · rintro ⟨t, ht, hpt⟩
    right
    cases hc : calculate_similarity t r.minutiae with
    | error er => rw [hc] at hpt; cases hpt
    | ok sim =>
      rw [hc] at hpt
      exact ⟨t, ht, sim, hc, by simpa using hpt⟩

theorem collectMatches_length :
    ∀ (refs : List RefRecord) (tests : List (List RawPoint))
      (ms : List MatchEntry),
    collectMatches tests refs = Except.ok ms →
    ms.length = refs.countP (fun r => hasPositiveArrangement tests r) := by
  intro refs
  induction refs with
  | nil =>
    intro tests ms h
    unfold collectMatches at h
    cases h
    rfl
  | cons r rs ih =>
    intro tests ms h
    unfold collectMatches at h
    cases hb : bestForRecord tests r with
    | error e => rw [hb] at h; cases h
    | ok b =>
      rw [hb] at h
      cases hcs : collectMatches tests rs with
      | error e => rw [hcs] at h; cases h
      | ok ms' =>
        rw [hcs] at h
        cases h
        have hiff := bestForRecord_isSome_iff tests r b hb
        rw [List.countP_cons]
        cases b with
        | some e =>
          have hp : hasPositiveArrangement tests r = true := hiff.mp rfl
          simp [ih tests ms' hcs, hp]
        | none =>
          have hp : hasPositiveArrangement tests r = false := by
            cases hph : hasPositiveArrangement tests r with
            | true => cases hiff.mpr hph
            | false => rfl
          simp [ih tests ms' hcs, hp]

/-- C3 counterexample: a non-empty collection whose single record has
computable minutiae (its similarity computes to score 0) yields the
no-match signal `none`, not a `closestMatch`, because a record scoring 0
under every arrangement is dropped from `all_matches`. -/
theorem c3_zero_score_no_match_counterexample :
    match_minutiae_with_database tblC refsC = none ∧
    refsC ≠ [] ∧
    calculate_similarity ((queryCandidates tblC).getD 0 [])
      ((refsC.getD 0 ⟨0, "", []⟩).minutiae) = Except.ok ⟨0, 0, 1, []⟩ := by
  decide

/-- C3 amended: the ranker produces exactly one best entry per record whose
best score is strictly positive (records scoring 0 under every arrangement
are dropped); when every collected entry is below 95 the top-scoring entry
is returned as `closestMatch`; when no record scores positively the result
is the no-match signal even though records exist. -/
theorem c3_positive_best_entries (tbl : Table) (refs : List RefRecord)
    (ms : List MatchEntry)
    (hne : refs ≠ [])
    (hms : collectMatches (queryCandidates tbl) refs = Except.ok ms) :
    ms.length = refs.countP
      (fun r => hasPositiveArrangement (queryCandidates tbl) r) ∧
    (∀ c rest, sortDesc ms = c :: rest →
      (∀ e ∈ ms, e.similarity.score < 95) →
      match_minutiae_with_database tbl refs =
        some (RankedOutcome.closestO c ((c :: rest).take 5)) ∧
      ∀ e ∈ ms, e.similarity.score ≤ c.similarity.score) ∧
    (ms = [] → match_minutiae_with_database tbl refs = none) := by
  refine ⟨collectMatches_length refs (queryCandidates tbl) ms hms, ?_, ?_⟩
  · intro c rest hsort hall
    refine ⟨?_, fun e he => sortDesc_head_max ms c rest hsort e he⟩
    rw [rank_eq_classify tbl refs ms hne hms, hsort]
    have hmem : ∀ e ∈ c :: rest, e.similarity.score < 95 := by
      intro e he
      refine hall e ((mem_sortDesc ms e).mp ?_)
      rw [hsort]
      exact he
    have hp : (c :: rest).filter
        (fun m => decide (99 ≤ m.similarity.score)) = [] := by
      rw [List.filter_eq_nil_iff]
      intro e he
      simp only [decide_eq_true_eq]
      intro h99
      linarith [hmem e he]
    have hg : (c :: rest).filter (fun m =>
        decide (95 ≤ m.similarity.score ∧ m.similarity.score < 99)) = [] := by
      rw [List.filter_eq_nil_iff]
      intro e he
      simp only [decide_eq_true_eq]
      intro hcontra
      linarith [hmem e he, hcontra.1]
    simp only [classifyMatches]
    rw [hp, hg]
  · intro hms0
    subst hms0
    rw [rank_eq_classify tbl refs [] hne hms]
    rfl

theorem c3_positive_best_entries_witness :
    ([] : List MatchEntry).length = refsC.countP
      (fun r => hasPositiveArrangement (queryCandidates tblC) r) ∧
    (∀ c rest, sortDesc [] = c :: rest →
      (∀ e ∈ ([] : List MatchEntry), e.similarity.score < 95) →
      match_minutiae_with_database tblC refsC =
        some (RankedOutcome.closestO c ((c :: rest).take 5)) ∧
      ∀ e ∈ ([] : List MatchEntry),
        e.similarity.score ≤ c.similarity.score) ∧
    (([] : List MatchEntry) = [] →
      match_minutiae_with_database tblC refsC = none) :=
  c3_positive_best_entries tblC refsC [] (by decide) (by decide)

end Proofs
